import Mathlib

/-!
Verification of the tft-guide recommendation and detection core.

The Python source is shallowly embedded:
* Python floats carrying probabilities/scores are modelled as exact
  rationals (`ℚ`); the probability tables of `config.py` consist of short
  decimal literals that are exact in both representations.
* Python `round(x, n)` is modelled by `roundTo n` (round to nearest
  multiple of `10⁻ⁿ`).  Python breaks ties to even while Mathlib's `round`
  breaks them upward; no statement below evaluates `roundTo` at a tie.
* Python dicts keyed by strings are modelled as association lists
  (`List (String × ℤ)`) with first-key-wins lookup and in-place update,
  which matches dict insertion-order semantics for the update patterns the
  source uses.
* `cv2.matchTemplate` output is external to the repository; it is
  abstracted as an oracle giving, per (region, template), the ordered list
  of candidate matches the scale loop of `detect_champions` enumerates.
  The thresholding, best-match folding, rounding and NMS stages are all
  embedded from the source.
-/

set_option maxRecDepth 2000

namespace TFTGuide

/-! ### config.py -/

/-- Table `CHAMPION_POOL = {1: 29, 2: 22, 3: 18, 4: 12, 5: 10}` read through
`CHAMPION_POOL.get(cost, 0)` as in `calculate_pool`. -/
def CHAMPION_POOL (cost : ℕ) : ℤ :=
  if cost = 1 then 29
  else if cost = 2 then 22
  else if cost = 3 then 18
  else if cost = 4 then 12
  else if cost = 5 then 10
  else 0

/-- Table `SHOP_ODDS` from `config.py`: levels 2–10 map to the five per-cost-tier
shop probabilities; any other level is absent from the dict. -/
def SHOP_ODDS (level : ℕ) : Option (List ℚ) :=
  if level = 2 then some [1.00, 0.00, 0.00, 0.00, 0.00]
  else if level = 3 then some [0.75, 0.25, 0.00, 0.00, 0.00]
  else if level = 4 then some [0.55, 0.30, 0.15, 0.00, 0.00]
  else if level = 5 then some [0.45, 0.33, 0.20, 0.02, 0.00]
  else if level = 6 then some [0.30, 0.40, 0.25, 0.05, 0.00]
  else if level = 7 then some [0.19, 0.30, 0.35, 0.15, 0.01]
  else if level = 8 then some [0.18, 0.25, 0.32, 0.22, 0.03]
  else if level = 9 then some [0.15, 0.20, 0.25, 0.30, 0.10]
  else if level = 10 then some [0.05, 0.10, 0.20, 0.40, 0.25]
  else none

/-! ### string-keyed dict model -/

/-- Lookup in a string-keyed dict modelled as an association list. -/
def dictFind (d : List (String × ℤ)) (k : String) : Option ℤ :=
  (d.find? (fun p => p.1 = k)).map (fun p => p.2)

/-- Python `d.get(k, default)`. -/
def dictGet (d : List (String × ℤ)) (k : String) (default : ℤ) : ℤ :=
  (dictFind d k).getD default

/-- Python `k in d`. -/
def dictContains (d : List (String × ℤ)) (k : String) : Bool :=
  d.any (fun p => p.1 = k)

/-- Python `d[k] = v`: overwrite the value in place if the key exists,
otherwise append the new entry (dict insertion order). -/
def dictSet (d : List (String × ℤ)) (k : String) (v : ℤ) : List (String × ℤ) :=
  if d.any (fun p => p.1 = k) then
    d.map (fun p => if p.1 = k then (k, v) else p)
  else
    d ++ [(k, v)]

/-! ### champion reference data -/

/-- One entry of `champions.json` as `DeckRecommender` reads it:
`{"name": ..., "cost": ...}`. -/
structure Champion where
  name : String
  cost : ℕ
deriving DecidableEq

/-- One entry of `meta.json`'s deck list, with every field `recommend` or
`get_shop_advice` reads. -/
structure MetaDeck where
  name : String
  tier : String
  win_rate : ℚ
  pick_rate : ℚ
  synergies : List String
  core_items : List String
  core_champions : List String
  champions : List String
deriving DecidableEq

/-- Model of `self._champ_map = {c["name"]: c for c in self.champions}`:
last occurrence of a name wins, unknown names map to nothing. -/
def champMap (champs : List Champion) (n : String) : Option Champion :=
  champs.foldl (fun acc c => if c.name = n then some c else acc) none

/-! ### DeckRecommender.calculate_pool -/

/-- Function `calculate_pool`: start every champion at its cost tier's total copy
count, then remove one copy per occurrence in any opponent roster, clamped
at zero, skipping names that are not pool keys. -/
def calculate_pool (champs : List Champion) (opponent_champions : List (List String)) :
    List (String × ℤ) :=
  let pool := champs.foldl (fun pool c => dictSet pool c.name (CHAMPION_POOL c.cost)) []
  opponent_champions.foldl
    (fun pool opp =>
      opp.foldl
        (fun pool name =>
          if dictContains pool name then
            dictSet pool name (max 0 (dictGet pool name 0 - 1))
          else pool)
        pool)
    pool

/-! ### DeckRecommender.shop_probability -/

/-- Function `shop_probability(champion_name, level, pool)`. -/
def shop_probability (champs : List Champion) (champion_name : String) (level : ℕ)
    (pool : List (String × ℤ)) : ℚ :=
  match champMap champs champion_name, SHOP_ODDS level with
  | some champ, some odds =>
      let cost := champ.cost
      let cost_odds := odds.getD (cost - 1) 0
      if cost_odds = 0 then 0
      else
        let total_in_cost : ℤ :=
          ((champs.filter (fun c => c.cost = cost)).map (fun c => dictGet pool c.name 0)).sum
        if total_in_cost = 0 then 0
        else cost_odds * ((dictGet pool champion_name 0 : ℚ) / (total_in_cost : ℚ))
  | _, _ => 0

/-! ### rounding and sorting helpers used by the source -/

/-- Python `round(x, n)`: round to the nearest multiple of `10⁻ⁿ`
(Python breaks decimal ties to even, Mathlib's `round` upward; no use
below sits on a tie). -/
def roundTo (n : ℕ) (x : ℚ) : ℚ :=
  ((round (x * 10 ^ n) : ℤ) : ℚ) / 10 ^ n

/-- Stable insertion of one element into a list sorted by descending key,
modelling Python's stable `list.sort(key=lambda r: -key r)`. -/
def insertDescBy (key : α → ℚ) (x : α) : List α → List α
  | [] => [x]
  | y :: ys => if key y ≤ key x then x :: y :: ys else y :: insertDescBy key x ys

/-- Stable sort by descending key. -/
def sortDescBy (key : α → ℚ) (l : List α) : List α :=
  l.foldr (insertDescBy key) []

/-- Insertion of one string into an ascending sorted list. -/
def insertAscStr (x : String) : List String → List String
  | [] => [x]
  | y :: ys => if x ≤ y then x :: y :: ys else y :: insertAscStr x ys

/-- Python `sorted` on a list of strings (lexicographic). -/
def sortStringsAsc (l : List String) : List String :=
  l.foldr insertAscStr []

/-- The iteration order of a Python `set(l)` built from a list: each
distinct element once.  CPython's set iteration order is unspecified; we
fix first-occurrence order, which no claim depends on. -/
def dedupKeepFirst [DecidableEq α] (l : List α) : List α :=
  l.foldl (fun acc x => if x ∈ acc then acc else acc ++ [x]) []

/-! ### DeckRecommender.recommend -/

/-- One element of a result's `needed_champions` list. -/
structure NeededInfo where
  name : String
  shop_probability : ℚ
  remaining_in_pool : ℤ
deriving DecidableEq

/-- One result dict built by `recommend`. -/
structure DeckRec where
  deck_name : String
  tier : String
  win_rate : ℚ
  pick_rate : ℚ
  synergies : List String
  core_items : List String
  match_rate : ℚ
  owned_champions : List String
  needed_champions : List NeededInfo
  completion_score : ℚ
deriving DecidableEq

/-- The result entries one meta deck contributes to `recommend`'s list:
none when its core-champion set is empty, otherwise exactly one. -/
def deckEntry (champs : List Champion) (pool : List (String × ℤ))
    (my_champions : List String) (level : ℕ) (deck : MetaDeck) : List DeckRec :=
  let core := dedupKeepFirst deck.core_champions
  let total_needed := core.length
  if total_needed = 0 then []
  else
    let owned := core.filter (fun n => n ∈ my_champions)
    let needed := core.filter (fun n => ¬ n ∈ my_champions)
    let match_rate : ℚ := (owned.length : ℚ) / (total_needed : ℚ)
    let needed_info := needed.map (fun name =>
      { name := name
        shop_probability := roundTo 4 (shop_probability champs name level pool)
        remaining_in_pool := dictGet pool name 0 : NeededInfo })
    let prob_product :=
      needed.foldl (fun pp name => pp * (1 - shop_probability champs name level pool)) 1
    let acquisition_score : ℚ := if needed ≠ [] then 1 - prob_product else 1
    let completion_score := match_rate * 0.6 + acquisition_score * 0.4
    [{ deck_name := deck.name
       tier := deck.tier
       win_rate := deck.win_rate
       pick_rate := deck.pick_rate
       synergies := deck.synergies
       core_items := deck.core_items
       match_rate := roundTo 2 match_rate
       owned_champions := sortStringsAsc owned
       needed_champions := needed_info
       completion_score := roundTo 4 completion_score }]

/-- Function `recommend(my_champions, opponent_champions, level)`: score every meta
deck (decks with an empty core are skipped) and sort the results by
descending completion score. -/
def recommend (champs : List Champion) (meta_decks : List MetaDeck)
    (my_champions : List String) (opponent_champions : List (List String))
    (level : ℕ) : List DeckRec :=
  let pool := calculate_pool champs opponent_champions
  sortDescBy (fun r => r.completion_score)
    (meta_decks.foldl (fun results deck =>
      results ++ deckEntry champs pool my_champions level deck) [])

/-! ### DeckRecommender._get_reroll_advice -/

/-- The reroll-advice dict returned by `_get_reroll_advice`. -/
structure RerollAdvice where
  should_reroll : Bool
  emoji : String
  reason : String
  detail : String
deriving DecidableEq

/-- The `{v*100:.0f}` formatting used in the detail strings (Python's
`:.0f` breaks decimal ties to even; no statement below evaluates it). -/
def fmt0 (x : ℚ) : String :=
  toString (round x)

/-- The costs of the top deck's needed champions: for the first deck of
`top_decks` only, each `needed_champions` entry whose name resolves in the
champion map contributes that champion's cost. -/
def neededCostsOf (champs : List Champion) (top_decks : List DeckRec) : List ℕ :=
  (top_decks.take 1).foldl
    (fun acc deck =>
      acc ++ deck.needed_champions.filterMap (fun ni => (champMap champs ni.name).map (fun c => c.cost)))
    []

/-- Model of `max(set(needed_costs), key=needed_costs.count)`: a cost of maximal
multiplicity.  CPython iterates the set in unspecified order; we take the
first-occurrence mode, which no claim depends on. -/
def modeFirst (l : List ℕ) : ℕ :=
  let uniq := dedupKeepFirst l
  uniq.foldl (fun best c => if l.count best < l.count c then c else best) (uniq.headD 0)

/-- The `primary_cost` of `_get_reroll_advice`. -/
def primaryCostOf (champs : List Champion) (top_decks : List DeckRec) : ℕ :=
  modeFirst (neededCostsOf champs top_decks)

/-- Model of `cost_odds = odds[primary_cost - 1] if primary_cost <= 5 else 0` with
`odds = SHOP_ODDS.get(level, [0]*5)`. -/
def costOddsOf (champs : List Champion) (top_decks : List DeckRec) (level : ℕ) : ℚ :=
  let odds := (SHOP_ODDS level).getD [0, 0, 0, 0, 0]
  let primary_cost := primaryCostOf champs top_decks
  if primary_cost ≤ 5 then odds.getD (primary_cost - 1) 0 else 0

/-- Function `_get_reroll_advice(my_champions, top_decks, level, gold, pool,
core_missing_count)`: the fixed decision sequence, first match wins. -/
def rerollAdviceOf (champs : List Champion) (my_champions : List String)
    (top_decks : List DeckRec) (level : ℕ) (gold : ℤ) (pool : List (String × ℤ))
    (core_missing_count : ℕ) : RerollAdvice :=
  if 50 ≤ gold then
    { should_reroll := false
      emoji := "❌"
      reason := "이자 유지"
      detail := s!"골드 {gold}g — 50g 이자 유지 추천. 리롤보다 경제 관리 우선" }
  else
    let needed_costs := neededCostsOf champs top_decks
    if needed_costs = [] then
      { should_reroll := false
        emoji := "❌"
        reason := "필요 유닛 없음"
        detail := "추천 덱이 거의 완성됨. 리롤 불필요" }
    else
      let avg_needed_cost : ℚ := (needed_costs.map (fun c => (c : ℚ))).sum / (needed_costs.length : ℚ)
      let primary_cost := primaryCostOf champs top_decks
      let cost_odds := costOddsOf champs top_decks level
      let pct := fmt0 (cost_odds * 100)
      if cost_odds < 0.10 then
        { should_reroll := false
          emoji := "❌"
          reason := "레벨업 추천"
          detail := s!"레벨 {level}에서 {primary_cost}코 등장 확률 {pct}% — 레벨업 후 리롤 추천" }
      else if 2 ≤ core_missing_count ∧ 20 ≤ gold ∧ 0.15 ≤ cost_odds then
        { should_reroll := true
          emoji := "✅"
          reason := s!"핵심 유닛 {core_missing_count}개 부족"
          detail := s!"{primary_cost}코 등장 확률 {pct}% — 골드 여유 있으면 리롤 추천" }
      else if gold < 20 then
        { should_reroll := false
          emoji := "❌"
          reason := "골드 부족"
          detail := s!"골드 {gold}g — 경제 회복 후 리롤" }
      else
        { should_reroll := false
          emoji := "🤔"
          reason := "상황 판단 필요"
          detail := s!"핵심 유닛 {core_missing_count}개 부족, {primary_cost}코 확률 {pct}%" }

/-! ### recognition/detector.py -/

/-- One detection dict as built by `detect_champions`.  `position` is the
absolute pixel position, `size` the matched template size. -/
structure Detection where
  name : String
  name_kr : String
  apiName : String
  position : ℤ × ℤ
  size : ℤ × ℤ
  confidence : ℚ
  area : String
  cost : ℕ
deriving DecidableEq

/-- The intersection-over-union of two detections' axis-aligned boxes, as
computed inside `_nms_boxes`: `0` when the boxes do not positively overlap
or the union is non-positive. -/
def iouQ (d k : Detection) : ℚ :=
  let x1 := d.position.1
  let y1 := d.position.2
  let w1 := d.size.1
  let h1 := d.size.2
  let x2 := k.position.1
  let y2 := k.position.2
  let w2 := k.size.1
  let h2 := k.size.2
  let ix1 := max x1 x2
  let iy1 := max y1 y2
  let ix2 := min (x1 + w1) (x2 + w2)
  let iy2 := min (y1 + h1) (y2 + h2)
  if ix1 < ix2 ∧ iy1 < iy2 then
    let inter := (ix2 - ix1) * (iy2 - iy1)
    let union := w1 * h1 + w2 * h2 - inter
    if 0 < union then (inter : ℚ) / (union : ℚ) else 0
  else 0

/-- The suppression test of `_nms_boxes`: the current detection `d` is
suppressed by a kept detection `k` when `ix2 > ix1 and iy2 > iy1` and
`union > 0 and inter / union > iou_threshold` (a strict comparison). -/
def iouSuppress (iou_threshold : ℚ) (d k : Detection) : Bool :=
  let x1 := d.position.1
  let y1 := d.position.2
  let w1 := d.size.1
  let h1 := d.size.2
  let x2 := k.position.1
  let y2 := k.position.2
  let w2 := k.size.1
  let h2 := k.size.2
  let ix1 := max x1 x2
  let iy1 := max y1 y2
  let ix2 := min (x1 + w1) (x2 + w2)
  let iy2 := min (y1 + h1) (y2 + h2)
  if ix1 < ix2 ∧ iy1 < iy2 then
    let inter := (ix2 - ix1) * (iy2 - iy1)
    let union := w1 * h1 + w2 * h2 - inter
    decide (0 < union ∧ iou_threshold < (inter : ℚ) / (union : ℚ))
  else false

/-- Function `_nms_boxes(detections, iou_threshold)`: sort by descending confidence
(stably) and greedily keep each detection unless some already-kept one
suppresses it. -/
def nmsBoxes (detections : List Detection) (iou_threshold : ℚ) : List Detection :=
  let sorted := sortDescBy (fun d => d.confidence) detections
  sorted.foldl (fun kept det =>
    if kept.any (fun k => iouSuppress iou_threshold det k) then kept else kept ++ [det]) []

/-- A fractional region of interest from `REGIONS`. -/
structure Region where
  x : ℚ
  y : ℚ
  w : ℚ
  h : ℚ
deriving DecidableEq

/-- Table `REGIONS` from `detector.py` in dict insertion order. -/
def REGIONS : List (String × Region) :=
  [("board", ⟨0.20, 0.20, 0.60, 0.50⟩),
   ("bench", ⟨0.20, 0.73, 0.60, 0.09⟩),
   ("shop", ⟨0.28, 0.90, 0.44, 0.09⟩)]

/-- The `apiName → {name, name_kr, cost}` record of `_load_champion_map`. -/
structure ChampInfo where
  name : String
  name_kr : String
  cost : ℕ
deriving DecidableEq

/-- One candidate match the scale loop enumerates for a (region, template)
pair: a raw `cv2.matchTemplate` score together with its crop-relative
position `(pt_x, pt_y)` and the resized template size `(new_w, new_h)`. -/
structure MatchCand where
  conf : ℚ
  px : ℤ
  py : ℤ
  w : ℤ
  h : ℤ
deriving DecidableEq

/-- The raw similarity scores produced by `cv2.resize`/`cv2.matchTemplate`
(external library calls), abstracted as an oracle keyed by region name and
template `apiName`, in the enumeration order of the scale loop. -/
def MatchOracle : Type :=
  String → String → List MatchCand

/-- The running `(best_conf, best_loc, best_size)` triple of the inner
loop of `detect_champions`. -/
structure BestMatch where
  conf : ℚ
  loc : Option (ℤ × ℤ)
  size : Option (ℤ × ℤ)

/-- The best-match fold: every candidate at or above the threshold
(`np.where(result >= self.threshold)`) with a strictly larger score than
the current best replaces it; `best_loc` becomes the absolute position
`(x1 + pt_x, y1 + pt_y)`. -/
def bestFold (threshold : ℚ) (x1 y1 : ℤ) (cands : List MatchCand) : BestMatch :=
  cands.foldl
    (fun best c =>
      if threshold ≤ c.conf ∧ best.conf < c.conf then
        { conf := c.conf, loc := some (x1 + c.px, y1 + c.py), size := some (c.w, c.h) }
      else best)
    { conf := 0, loc := none, size := none }

/-- The detection appended for one (region, template) pair when
`best_loc and best_conf >= self.threshold`: champion metadata is resolved
through the champion map with the `apiName` as fallback and the confidence
is rounded to 4 decimals. -/
def detOfTemplate (champion_map : String → Option ChampInfo) (threshold : ℚ)
    (x1 y1 : ℤ) (region_name api_name : String) (cands : List MatchCand) :
    Option Detection :=
  let best := bestFold threshold x1 y1 cands
  match best.loc, best.size with
  | some loc, some sz =>
      if threshold ≤ best.conf then
        some
          { name := ((champion_map api_name).map (fun i => i.name)).getD api_name
            name_kr := ((champion_map api_name).map (fun i => i.name_kr)).getD api_name
            apiName := api_name
            position := loc
            size := sz
            confidence := roundTo 4 best.conf
            area := region_name
            cost := ((champion_map api_name).map (fun i => i.cost)).getD 1 }
      else none
  | _, _ => none

/-- The detections one region contributes before NMS: resolve the absolute
pixel rectangle (Python `int()` truncation coincides with `⌊·⌋` on the
non-negative values involved), skip an empty crop, and keep per template
the best match at or above the threshold. -/
def regionDetections (templates : List String) (champion_map : String → Option ChampInfo)
    (threshold : ℚ) (oracle : MatchOracle) (imgH imgW : ℕ) (region_name : String)
    (roi : Region) : List Detection :=
  let x1 : ℤ := ⌊(imgW : ℚ) * roi.x⌋
  let y1 : ℤ := ⌊(imgH : ℚ) * roi.y⌋
  let x2 : ℤ := ⌊(imgW : ℚ) * (roi.x + roi.w)⌋
  let y2 : ℤ := ⌊(imgH : ℚ) * (roi.y + roi.h)⌋
  let crop_h := max 0 (min y2 (imgH : ℤ) - min y1 (imgH : ℤ))
  let crop_w := max 0 (min x2 (imgW : ℤ) - min x1 (imgW : ℤ))
  if crop_h = 0 ∨ crop_w = 0 then []
  else
    templates.filterMap (fun api_name =>
      detOfTemplate champion_map threshold x1 y1 region_name api_name
        (oracle region_name api_name))

/-- Function `detect_champions(image, regions)`: collect every region's best
matches in iteration order and deduplicate with NMS at threshold `0.3`;
with no templates loaded the result is empty. -/
def detect_champions (templates : List String) (champion_map : String → Option ChampInfo)
    (threshold : ℚ) (oracle : MatchOracle) (imgH imgW : ℕ)
    (regions : List (String × Region)) : List Detection :=
  if templates.isEmpty then []
  else
    nmsBoxes
      (regions.foldl
        (fun acc p =>
          acc ++ regionDetections templates champion_map threshold oracle imgH imgW p.1 p.2)
        [])
      0.3

/-- Function `detect_from_region(image, region)`: empty for an unknown region name,
otherwise `detect_champions` restricted to that single region. -/
def detect_from_region (templates : List String) (champion_map : String → Option ChampInfo)
    (threshold : ℚ) (oracle : MatchOracle) (imgH imgW : ℕ) (region : String) :
    List Detection :=
  match REGIONS.find? (fun p => p.1 = region) with
  | none => []
  | some p =>
      detect_champions templates champion_map threshold oracle imgH imgW [(region, p.2)]

/-- Function `set_threshold(threshold)`: clamp to `[0.1, 1.0]`. -/
def set_threshold (threshold : ℚ) : ℚ :=
  max 0.1 (min 1.0 threshold)

/-! ### generic fold and sort lemmas -/

theorem foldl_invariant_mem {α β : Type _} (P : α → Prop) (step : α → β → α) :
    ∀ (l : List β) (init : α), P init → (∀ a b, b ∈ l → P a → P (step a b)) →
    P (l.foldl step init) := by
  intro l
  induction l with
  | nil => intro init h0 _; exact h0
  | cons b tl ih =>
    intro init h0 hstep
    simp only [List.foldl_cons]
    exact ih (step init b) (hstep init b (List.mem_cons_self b tl) h0)
      (fun a b' hb' ha => hstep a b' (List.mem_cons_of_mem _ hb') ha)

theorem mem_foldl_append {α β : Type _} (g : β → List α) :
    ∀ (l : List β) (acc : List α) (x : α),
    x ∈ l.foldl (fun acc b => acc ++ g b) acc → x ∈ acc ∨ ∃ b ∈ l, x ∈ g b := by
  intro l
  induction l with
  | nil => intro acc x hx; exact Or.inl hx
  | cons b tl ih =>
    intro acc x hx
    simp only [List.foldl_cons] at hx
    rcases ih _ x hx with h | ⟨b', hb', hx'⟩
    · rcases List.mem_append.mp h with h | h
      · exact Or.inl h
      · exact Or.inr ⟨b, List.mem_cons_self _ _, h⟩
    · exact Or.inr ⟨b', List.mem_cons_of_mem _ hb', hx'⟩

theorem foldl_append_mem_acc {α β : Type _} (g : β → List α) :
    ∀ (l : List β) (acc : List α) (x : α),
    x ∈ acc → x ∈ l.foldl (fun acc b => acc ++ g b) acc := by
  intro l
  induction l with
  | nil => intro acc x hx; exact hx
  | cons b tl ih =>
    intro acc x hx
    simp only [List.foldl_cons]
    exact ih _ x (List.mem_append_left _ hx)

theorem foldl_append_mem_of {α β : Type _} (g : β → List α) :
    ∀ (l : List β) (acc : List α) (b : β) (x : α),
    b ∈ l → x ∈ g b → x ∈ l.foldl (fun acc b => acc ++ g b) acc := by
  intro l
  induction l with
  | nil => intro acc b x hb _; cases hb
  | cons hd tl ih =>
    intro acc b x hb hx
    simp only [List.foldl_cons]
    rcases List.mem_cons.mp hb with rfl | hb'
    · exact foldl_append_mem_acc g tl _ x (List.mem_append_right _ hx)
    · exact ih _ b x hb' hx

theorem mem_insertDescBy {α : Type _} (key : α → ℚ) (x : α) :
    ∀ (l : List α) (a : α), a ∈ insertDescBy key x l ↔ a = x ∨ a ∈ l := by
  intro l
  induction l with
  | nil => intro a; simp [insertDescBy]
  | cons y ys ih =>
    intro a
    simp only [insertDescBy]
    split_ifs with h
    · simp [List.mem_cons]
    · simp only [List.mem_cons, ih a]
      tauto

theorem mem_sortDescBy {α : Type _} (key : α → ℚ) (l : List α) (a : α) :
    a ∈ sortDescBy key l ↔ a ∈ l := by
  induction l with
  | nil => simp [sortDescBy]
  | cons x xs ih =>
    simp only [sortDescBy, List.foldr_cons] at ih ⊢
    rw [mem_insertDescBy, ih, List.mem_cons]

theorem mem_nmsBoxes {l : List Detection} {thr : ℚ} {d : Detection}
    (h : d ∈ nmsBoxes l thr) : d ∈ l := by
  unfold nmsBoxes at h
  have hsub :
      ∀ x ∈ (sortDescBy (fun d => d.confidence) l).foldl
        (fun kept det =>
          if kept.any (fun k => iouSuppress thr det k) then kept else kept ++ [det]) [],
        x ∈ sortDescBy (fun d => d.confidence) l := by
    apply foldl_invariant_mem
      (P := fun kept => ∀ x ∈ kept, x ∈ sortDescBy (fun d => d.confidence) l)
    · intro x hx; cases hx
    · intro kept det hdet hkept x hx
      split at hx
      · exact hkept x hx
      · rcases List.mem_append.mp hx with hx | hx
        · exact hkept x hx
        · rcases List.mem_singleton.mp hx with rfl
          exact hdet
  exact (mem_sortDescBy _ l d).mp (hsub d h)

/-! ### dict lemmas -/

theorem dictFind_exists_of_contains {d : List (String × ℤ)} {k : String}
    (h : dictContains d k = true) : ∃ p ∈ d, d.find? (fun p => p.1 = k) = some p := by
  induction d with
  | nil => simp [dictContains] at h
  | cons q d ih =>
    by_cases hq : q.1 = k
    · exact ⟨q, List.mem_cons_self _ _, by simp [List.find?, hq]⟩
    · have h' : dictContains d k = true := by
        unfold dictContains at h ⊢
        simpa [List.any_cons, hq] using h
      rcases ih h' with ⟨p, hp, hfind⟩
      exact ⟨p, List.mem_cons_of_mem _ hp, by simpa [List.find?, hq] using hfind⟩

theorem contains_dictSet_self (d : List (String × ℤ)) (k : String) (v : ℤ) :
    dictContains (dictSet d k v) k = true := by
  unfold dictContains dictSet
  split_ifs with h
  · rcases List.any_eq_true.mp h with ⟨p, hp, hpk⟩
    refine List.any_eq_true.mpr ⟨(k, v), List.mem_map.mpr ⟨p, hp, ?_⟩, by simp⟩
    simp [of_decide_eq_true hpk]
  · exact List.any_eq_true.mpr ⟨(k, v), List.mem_append_right _ (by simp), by simp⟩

theorem contains_dictSet_of {d : List (String × ℤ)} {k' : String} (k : String) (v : ℤ)
    (h : dictContains d k' = true) : dictContains (dictSet d k v) k' = true := by
  unfold dictContains dictSet
  unfold dictContains at h
  rcases List.any_eq_true.mp h with ⟨p, hp, hpk⟩
  split_ifs with hany
  · by_cases hpk' : p.1 = k
    · refine List.any_eq_true.mpr ⟨(k, v), List.mem_map.mpr ⟨p, hp, by simp [hpk']⟩, ?_⟩
      have : p.1 = k' := of_decide_eq_true hpk
      simp [← this, hpk']
    · exact List.any_eq_true.mpr ⟨p, List.mem_map.mpr ⟨p, hp, by simp [hpk']⟩, hpk⟩
  · exact List.any_eq_true.mpr ⟨p, List.mem_append_left _ hp, hpk⟩

theorem values_nonneg_dictSet {d : List (String × ℤ)} (k : String) {v : ℤ}
    (hd : ∀ p ∈ d, 0 ≤ p.2) (hv : 0 ≤ v) : ∀ p ∈ dictSet d k v, 0 ≤ p.2 := by
  intro p hp
  unfold dictSet at hp
  split_ifs at hp with hany
  · rcases List.mem_map.mp hp with ⟨q, hq, rfl⟩
    split_ifs with hqk
    · exact hv
    · exact hd q hq
  · rcases List.mem_append.mp hp with hp' | hp'
    · exact hd p hp'
    · rcases List.mem_singleton.mp hp' with rfl
      exact hv

theorem dictGet_nonneg {pool : List (String × ℤ)} (hpool : ∀ p ∈ pool, 0 ≤ p.2)
    (k : String) : 0 ≤ dictGet pool k 0 := by
  unfold dictGet dictFind
  cases hfind : pool.find? (fun p => p.1 = k) with
  | none => simp
  | some p =>
    simp only [Option.map_some', Option.getD_some]
    exact hpool p (List.mem_of_find?_eq_some hfind)

/-! ### lemmas about the configuration tables -/

theorem CHAMPION_POOL_nonneg (cost : ℕ) : 0 ≤ CHAMPION_POOL cost := by
  unfold CHAMPION_POOL
  split_ifs <;> norm_num

theorem SHOP_ODDS_entries {level : ℕ} {odds : List ℚ} (h : SHOP_ODDS level = some odds) :
    ∀ x ∈ odds, 0 ≤ x ∧ x ≤ 1 := by
  unfold SHOP_ODDS at h
  split_ifs at h <;> injection h with h <;> subst h <;> with_unfolding_all decide

theorem getD_nonneg_le_one {l : List ℚ} (hl : ∀ x ∈ l, 0 ≤ x ∧ x ≤ 1) :
    ∀ i : ℕ, 0 ≤ l.getD i 0 ∧ l.getD i 0 ≤ 1 := by
  induction l with
  | nil => intro i; simp
  | cons x xs ih =>
    intro i
    cases i with
    | zero => simpa using hl x (List.mem_cons_self _ _)
    | succ j =>
      simpa using ih (fun y hy => hl y (List.mem_cons_of_mem _ hy)) j

theorem champMap_eq_some {champs : List Champion} {n : String} {c : Champion}
    (h : champMap champs n = some c) : c ∈ champs ∧ c.name = n := by
  unfold champMap at h
  have haux :
      ∀ (l : List Champion) (acc : Option Champion),
        l.foldl (fun acc ch => if ch.name = n then some ch else acc) acc = some c →
        (acc = some c ∨ (c ∈ l ∧ c.name = n)) := by
    intro l
    induction l with
    | nil => intro acc h'; exact Or.inl h'
    | cons hd tl ih =>
      intro acc h'
      simp only [List.foldl_cons] at h'
      rcases ih _ h' with hacc | ⟨hmem, hname⟩
      · split_ifs at hacc with hhd
        · injection hacc with hacc
          exact Or.inr ⟨by rw [← hacc]; exact List.mem_cons_self _ _, by rw [← hacc]; exact hhd⟩
        · exact Or.inl hacc
      · exact Or.inr ⟨List.mem_cons_of_mem _ hmem, hname⟩
  rcases haux champs none h with hacc | h'
  · cases hacc
  · exact h'

/-! ### C3: calculate_pool never goes negative and covers every champion -/

/-- C3 — For every champion of the reference table and every list of
opponent rosters (over-claiming allowed), `calculate_pool` has an entry
for that champion's name whose remaining-copy count is a non-negative
integer: the initial per-cost totals are non-negative and each decrement
is clamped at zero. -/
theorem calculate_pool_nonneg (champs : List Champion)
    (opponent_champions : List (List String)) :
    ∀ c ∈ champs, ∃ v, dictFind (calculate_pool champs opponent_champions) c.name = some v ∧
      0 ≤ v := by
  intro c hc
  unfold calculate_pool
  have hinit :
      (∀ p ∈ champs.foldl (fun pool ch => dictSet pool ch.name (CHAMPION_POOL ch.cost)) [],
         0 ≤ p.2) ∧
      dictContains (champs.foldl (fun pool ch => dictSet pool ch.name (CHAMPION_POOL ch.cost)) [])
        c.name = true := by
    have haux :
        ∀ (l : List Champion) (acc : List (String × ℤ)),
          (∀ p ∈ acc, 0 ≤ p.2) → (c ∈ l ∨ dictContains acc c.name = true) →
          (∀ p ∈ l.foldl (fun pool ch => dictSet pool ch.name (CHAMPION_POOL ch.cost)) acc,
             0 ≤ p.2) ∧
          dictContains (l.foldl (fun pool ch => dictSet pool ch.name (CHAMPION_POOL ch.cost)) acc)
            c.name = true := by
      intro l
      induction l with
      | nil =>
        intro acc hval hcon
        rcases hcon with hcon | hcon
        · cases hcon
        · exact ⟨hval, hcon⟩
      | cons hd tl ih =>
        intro acc hval hcon
        simp only [List.foldl_cons]
        apply ih
        · exact values_nonneg_dictSet _ hval (CHAMPION_POOL_nonneg _)
        · rcases hcon with hcon | hcon
          · rcases List.mem_cons.mp hcon with rfl | hmem
            · exact Or.inr (contains_dictSet_self _ _ _)
            · exact Or.inl hmem
          · exact Or.inr (contains_dictSet_of _ _ hcon)
    exact haux champs [] (by intro p hp; cases hp) (Or.inl hc)
  have hdec :
      ∀ (pool : List (String × ℤ)),
        (∀ p ∈ pool, 0 ≤ p.2) → dictContains pool c.name = true →
        (∀ p ∈ opponent_champions.foldl
            (fun pool opp =>
              opp.foldl
                (fun pool name =>
                  if dictContains pool name then
                    dictSet pool name (max 0 (dictGet pool name 0 - 1))
                  else pool)
                pool)
            pool, 0 ≤ p.2) ∧
        dictContains (opponent_champions.foldl
            (fun pool opp =>
              opp.foldl
                (fun pool name =>
                  if dictContains pool name then
                    dictSet pool name (max 0 (dictGet pool name 0 - 1))
                  else pool)
                pool)
            pool) c.name = true := by
    intro pool hval hcon
    have hstep :
        ∀ (pool : List (String × ℤ)) (opp : List String),
          (∀ p ∈ pool, 0 ≤ p.2) ∧ dictContains pool c.name = true →
          (∀ p ∈ opp.foldl
              (fun pool name =>
                if dictContains pool name then
                  dictSet pool name (max 0 (dictGet pool name 0 - 1))
                else pool)
              pool, 0 ≤ p.2) ∧
          dictContains (opp.foldl
              (fun pool name =>
                if dictContains pool name then
                  dictSet pool name (max 0 (dictGet pool name 0 - 1))
                else pool)
              pool) c.name = true := by
      intro pool opp hP
      apply foldl_invariant_mem
        (P := fun d => (∀ p ∈ d, 0 ≤ p.2) ∧ dictContains d c.name = true) _ opp pool hP
      intro d name _ hd
      split_ifs with hin
      · exact ⟨values_nonneg_dictSet _ hd.1 (le_max_left _ _),
          contains_dictSet_of _ _ hd.2⟩
      · exact hd
    have := foldl_invariant_mem
      (P := fun d => (∀ p ∈ d, 0 ≤ p.2) ∧ dictContains d c.name = true)
      (fun pool opp =>
        opp.foldl
          (fun pool name =>
            if dictContains pool name then
              dictSet pool name (max 0 (dictGet pool name 0 - 1))
            else pool)
          pool)
      opponent_champions pool ⟨hval, hcon⟩ (fun a b _ ha => hstep a b ha)
    exact this
  obtain ⟨hval, hcon⟩ := hdec _ hinit.1 hinit.2
  rcases dictFind_exists_of_contains hcon with ⟨p, hp, hfind⟩
  exact ⟨p.2, by simp [dictFind, hfind], hval p hp⟩

/-- C3 witness: one cost-1 champion, 31 opponents each over-claiming a
copy; its pool entry exists and is non-negative (it is in fact clamped at
0). -/
theorem calculate_pool_nonneg_witness :
    (Champion.mk "A" 1 ∈ [Champion.mk "A" 1]) ∧
    ∃ v, dictFind (calculate_pool [Champion.mk "A" 1] (List.replicate 31 ["A"]))
        (Champion.mk "A" 1).name = some v ∧ 0 ≤ v :=
  ⟨by decide,
   calculate_pool_nonneg [Champion.mk "A" 1] (List.replicate 31 ["A"])
     (Champion.mk "A" 1) (by decide)⟩

/-! ### C7: every defined SHOP_ODDS row sums to 1 -/

/-- C7 — For every level defined in the shop-odds table, the five
per-cost-tier probabilities sum to exactly 1 (the claim allows
representation error; over exact rationals the sum is exact). -/
theorem shop_odds_sum_one (level : ℕ) (odds : List ℚ)
    (h : SHOP_ODDS level = some odds) : odds.length = 5 ∧ odds.sum = 1 := by
  unfold SHOP_ODDS at h
  split_ifs at h <;> injection h with h <;> subst h <;> with_unfolding_all decide

/-- C7 witness: the level-7 row. -/
theorem shop_odds_sum_one_witness :
    SHOP_ODDS 7 = some [0.19, 0.30, 0.35, 0.15, 0.01] ∧
    ([0.19, 0.30, 0.35, 0.15, 0.01] : List ℚ).length = 5 ∧
    ([0.19, 0.30, 0.35, 0.15, 0.01] : List ℚ).sum = 1 :=
  ⟨by with_unfolding_all decide, shop_odds_sum_one 7 _ (by with_unfolding_all decide)⟩

/-! ### C2: the zero cases of shop_probability -/

/-- C2 — `shop_probability` returns exactly 0 when the level is not a key
of the shop-odds table, when the champion name is unknown, when the
champion's cost-tier rate at that level is 0, or when the total remaining
copies of that cost tier in the pool is 0. -/
theorem shop_probability_zero_cases (champs : List Champion) (champion_name : String)
    (level : ℕ) (pool : List (String × ℤ))
    (h : SHOP_ODDS level = none ∨
         champMap champs champion_name = none ∨
         (∃ champ odds, champMap champs champion_name = some champ ∧
            SHOP_ODDS level = some odds ∧ 1 ≤ champ.cost ∧
            odds.getD (champ.cost - 1) 0 = 0) ∨
         (∃ champ, champMap champs champion_name = some champ ∧
            ((champs.filter (fun c => c.cost = champ.cost)).map
              (fun c => dictGet pool c.name 0)).sum = 0)) :
    shop_probability champs champion_name level pool = 0 := by
  unfold shop_probability
  rcases h with ho | hm | ⟨champ, odds, hm, ho, _, hz⟩ | ⟨champ, hm, hz⟩
  · cases hm' : champMap champs champion_name <;> simp [ho, hm']
  · cases ho' : SHOP_ODDS level <;> simp [hm, ho']
  · rw [hm, ho]
    dsimp only
    rw [if_pos hz]
  · rw [hm]
    cases ho' : SHOP_ODDS level with
    | none => rfl
    | some odds =>
      dsimp only
      by_cases hco : odds.getD (champ.cost - 1) 0 = 0
      · rw [if_pos hco]
      · rw [if_neg hco, if_pos hz]

/-- C2 witness: an unknown champion name at a defined level. -/
theorem shop_probability_zero_cases_witness :
    champMap [] "A" = none ∧ shop_probability [] "A" 7 [] = 0 :=
  ⟨rfl, shop_probability_zero_cases [] "A" 7 [] (Or.inr (Or.inl rfl))⟩

/-! ### C10: shop_probability stays within [0, 1] and below the tier rate -/

/-- C10 — For every pool with non-negative counts (and a champion table
with costs in 1..5, the documented invariant under which the embedded
`odds[cost - 1]` lookup agrees with Python's), `shop_probability` is in
`[0, 1]` and never exceeds the champion's cost-tier appearance rate,
because the champion's own remaining count is one of the summands of the
same-cost total it is divided by. -/
theorem shop_probability_bounds (champs : List Champion) (champion_name : String)
    (level : ℕ) (pool : List (String × ℤ))
    (hpool : ∀ p ∈ pool, 0 ≤ p.2)
    (hcost : ∀ c ∈ champs, 1 ≤ c.cost ∧ c.cost ≤ 5) :
    0 ≤ shop_probability champs champion_name level pool ∧
    shop_probability champs champion_name level pool ≤ 1 ∧
    (∀ champ odds, champMap champs champion_name = some champ →
      SHOP_ODDS level = some odds →
      shop_probability champs champion_name level pool ≤ odds.getD (champ.cost - 1) 0) := by
  unfold shop_probability
  cases hm : champMap champs champion_name with
  | none =>
    refine ⟨by simp, by simp, ?_⟩
    intro champ odds hm' _
    cases hm'
  | some champ =>
    cases ho : SHOP_ODDS level with
    | none =>
      refine ⟨by simp, by simp, ?_⟩
      intro champ' odds hm' ho'
      cases ho'
    | some odds =>
      have hoddsb := SHOP_ODDS_entries ho
      have hgetD := getD_nonneg_le_one hoddsb (champ.cost - 1)
      have hmain :
          0 ≤ (if odds.getD (champ.cost - 1) 0 = 0 then (0 : ℚ)
            else
              let total_in_cost : ℤ :=
                ((champs.filter (fun c => c.cost = champ.cost)).map
                  (fun c => dictGet pool c.name 0)).sum
              if total_in_cost = 0 then 0
              else odds.getD (champ.cost - 1) 0 *
                ((dictGet pool champion_name 0 : ℚ) / (total_in_cost : ℚ))) ∧
          (if odds.getD (champ.cost - 1) 0 = 0 then (0 : ℚ)
            else
              let total_in_cost : ℤ :=
                ((champs.filter (fun c => c.cost = champ.cost)).map
                  (fun c => dictGet pool c.name 0)).sum
              if total_in_cost = 0 then 0
              else odds.getD (champ.cost - 1) 0 *
                ((dictGet pool champion_name 0 : ℚ) / (total_in_cost : ℚ))) ≤
            odds.getD (champ.cost - 1) 0 := by
        dsimp only
        split_ifs with h0 ht
        · exact ⟨le_refl 0, le_of_eq h0.symm⟩
        · exact ⟨le_refl 0, hgetD.1⟩
        · set T : ℤ :=
            ((champs.filter (fun c => c.cost = champ.cost)).map
              (fun c => dictGet pool c.name 0)).sum with hT
          have hTnonneg : 0 ≤ T := by
            rw [hT]
            apply List.sum_nonneg
            intro x hx
            rcases List.mem_map.mp hx with ⟨c, _, rfl⟩
            exact dictGet_nonneg hpool c.name
          have hTpos : 0 < T := lt_of_le_of_ne hTnonneg (Ne.symm ht)
          have hmem := champMap_eq_some hm
          have hr : dictGet pool champion_name 0 ≤ T := by
            rw [hT]
            apply List.single_le_sum
            · intro x hx
              rcases List.mem_map.mp hx with ⟨c, _, rfl⟩
              exact dictGet_nonneg hpool c.name
            · refine List.mem_map.mpr ⟨champ, ?_, by rw [hmem.2]⟩
              exact List.mem_filter.mpr ⟨hmem.1, by simp⟩
          have hrnonneg : 0 ≤ dictGet pool champion_name 0 :=
            dictGet_nonneg hpool champion_name
          have hTQ : (0 : ℚ) < (T : ℚ) := by exact_mod_cast hTpos
          have hfrac0 : (0 : ℚ) ≤ (dictGet pool champion_name 0 : ℚ) / (T : ℚ) :=
            div_nonneg (by exact_mod_cast hrnonneg) (le_of_lt hTQ)
          have hfrac1 : (dictGet pool champion_name 0 : ℚ) / (T : ℚ) ≤ 1 :=
            (div_le_one hTQ).mpr (by exact_mod_cast hr)
          constructor
          · exact mul_nonneg hgetD.1 hfrac0
          · calc odds.getD (champ.cost - 1) 0 *
                ((dictGet pool champion_name 0 : ℚ) / (T : ℚ)) ≤
                odds.getD (champ.cost - 1) 0 * 1 :=
                  mul_le_mul_of_nonneg_left hfrac1 hgetD.1
            _ = odds.getD (champ.cost - 1) 0 := mul_one _
      refine ⟨hmain.1, le_trans hmain.2 hgetD.2, ?_⟩
      intro champ' odds' hm' ho'
      injection hm' with hm'
      injection ho' with ho'
      subst hm'
      subst ho'
      exact hmain.2

/-- C10 witness: a one-champion table, a pool holding five copies. -/
theorem shop_probability_bounds_witness :
    (∀ p ∈ [("A", (5 : ℤ))], 0 ≤ p.2) ∧
    0 ≤ shop_probability [Champion.mk "A" 1] "A" 7 [("A", 5)] ∧
    shop_probability [Champion.mk "A" 1] "A" 7 [("A", 5)] ≤ 1 :=
  ⟨by with_unfolding_all decide,
   (shop_probability_bounds [Champion.mk "A" 1] "A" 7 [("A", 5)]
      (by with_unfolding_all decide) (by with_unfolding_all decide)).1,
   (shop_probability_bounds [Champion.mk "A" 1] "A" 7 [("A", 5)]
      (by with_unfolding_all decide) (by with_unfolding_all decide)).2.1⟩

/-! ### C6: the interest guard comes first -/

/-- C6 — Whenever `gold ≥ 50`, the reroll advice is "do not reroll" with
the preserve-interest reason, regardless of the other inputs: this branch
is the first of the decision sequence. -/
theorem reroll_interest_guard (champs : List Champion) (my_champions : List String)
    (top_decks : List DeckRec) (level : ℕ) (gold : ℤ) (pool : List (String × ℤ))
    (core_missing_count : ℕ) (h : 50 ≤ gold) :
    (rerollAdviceOf champs my_champions top_decks level gold pool
      core_missing_count).should_reroll = false ∧
    (rerollAdviceOf champs my_champions top_decks level gold pool
      core_missing_count).reason = "이자 유지" := by
  unfold rerollAdviceOf
  rw [if_pos h]
  exact ⟨rfl, rfl⟩

/-- C6 witness: scenario B of the spec — level 7, gold 60. -/
theorem reroll_interest_guard_witness :
    (50 : ℤ) ≤ 60 ∧
    (rerollAdviceOf [] [] [] 7 60 [] 3).should_reroll = false ∧
    (rerollAdviceOf [] [] [] 7 60 [] 3).reason = "이자 유지" :=
  ⟨by decide, reroll_interest_guard [] [] [] 7 60 [] 3 (by decide)⟩

/-! ### C4: the positive reroll branch -/

/-- C4 — When the earlier branches of the reroll decision do not match
(`gold < 50`, the top deck has missing champions with resolvable costs,
dominant-cost rate `≥ 0.10`) and at least 2 core champions are missing,
`gold ≥ 20`, and the dominant-cost probability is `≥ 0.15`, the advice is
to reroll.  (Costs are required to be `≥ 1`, the documented invariant
under which the embedded `odds[primary_cost - 1]` lookup agrees with
Python's.) -/
theorem reroll_branch4_should_reroll (champs : List Champion) (my_champions : List String)
    (top_decks : List DeckRec) (level : ℕ) (gold : ℤ) (pool : List (String × ℤ))
    (core_missing_count : ℕ)
    (hcost : ∀ c ∈ champs, 1 ≤ c.cost)
    (hgold : gold < 50)
    (hneeded : neededCostsOf champs top_decks ≠ [])
    (hodds10 : (0.10 : ℚ) ≤ costOddsOf champs top_decks level)
    (hmissing : 2 ≤ core_missing_count)
    (hgold20 : 20 ≤ gold)
    (hodds15 : (0.15 : ℚ) ≤ costOddsOf champs top_decks level) :
    (rerollAdviceOf champs my_champions top_decks level gold pool
      core_missing_count).should_reroll = true := by
  unfold rerollAdviceOf
  rw [if_neg (not_le.mpr hgold)]
  dsimp only
  rw [if_neg hneeded, if_neg (not_lt.mpr hodds10), if_pos ⟨hmissing, hgold20, hodds15⟩]

/-- C4 witness: one cost-3 champion missing from the top deck at level 7
(rate 0.35), gold 30, two core champions missing. -/
theorem reroll_branch4_should_reroll_witness :
    neededCostsOf [Champion.mk "A" 3]
        [DeckRec.mk "D" "S" 0 0 [] [] 0 [] [NeededInfo.mk "A" 0 0] 0] ≠ [] ∧
    (0.15 : ℚ) ≤ costOddsOf [Champion.mk "A" 3]
        [DeckRec.mk "D" "S" 0 0 [] [] 0 [] [NeededInfo.mk "A" 0 0] 0] 7 ∧
    (rerollAdviceOf [Champion.mk "A" 3] []
        [DeckRec.mk "D" "S" 0 0 [] [] 0 [] [NeededInfo.mk "A" 0 0] 0]
        7 30 [] 2).should_reroll = true :=
  ⟨by with_unfolding_all decide,
   by with_unfolding_all decide,
   reroll_branch4_should_reroll [Champion.mk "A" 3] []
     [DeckRec.mk "D" "S" 0 0 [] [] 0 [] [NeededInfo.mk "A" 0 0] 0] 7 30 [] 2
     (by with_unfolding_all decide)
     (by with_unfolding_all decide)
     (by with_unfolding_all decide)
     (by with_unfolding_all decide)
     (by with_unfolding_all decide)
     (by with_unfolding_all decide)
     (by with_unfolding_all decide)⟩

/-! ### C1: a fully-owned core yields completion score 1, not 0.6 -/

theorem mem_of_mem_dedupKeepFirst [DecidableEq α] {l : List α} {x : α}
    (h : x ∈ dedupKeepFirst l) : x ∈ l := by
  unfold dedupKeepFirst at h
  have := foldl_invariant_mem (P := fun acc : List α => ∀ y ∈ acc, y ∈ l)
    (fun acc x => if x ∈ acc then acc else acc ++ [x]) l []
    (by intro y hy; cases hy)
    (by
      intro acc b hb hacc y hy
      dsimp only at hy
      split_ifs at hy
      · exact hacc y hy
      · rcases List.mem_append.mp hy with hy | hy
        · exact hacc y hy
        · rcases List.mem_singleton.mp hy with rfl
          exact hb)
  exact this x h

theorem dedupKeepFirst_ne_nil [DecidableEq α] {l : List α} (h : l ≠ []) :
    dedupKeepFirst l ≠ [] := by
  cases l with
  | nil => exact absurd rfl h
  | cons x xs =>
    unfold dedupKeepFirst
    have h1 : List.foldl (fun acc y => if y ∈ acc then acc else acc ++ [y]) [] (x :: xs) =
        List.foldl (fun acc y => if y ∈ acc then acc else acc ++ [y]) [x] xs := by
      simp [List.foldl_cons]
    rw [h1]
    exact foldl_invariant_mem (P := fun acc : List α => acc ≠ [])
      (fun acc y => if y ∈ acc then acc else acc ++ [y]) xs [x] (by simp)
      (by
        intro acc b _ hacc
        dsimp only
        split_ifs
        · exact hacc
        · simp)

/-- The concrete deck of the C1 counterexample. -/
def c1Deck : MetaDeck :=
  MetaDeck.mk "D" "S" 0 0 [] [] ["A"] ["A"]

/-- C1 counterexample — with a single meta deck whose core champion "A" is
owned (`match_rate = 1`), the reported completion score is exactly 1, not
0.6: the code forces `acquisition_score = 1` and computes
`0.6·match_rate + 0.4·acquisition_score = 1`. -/
theorem recommend_full_match_cex :
    ((recommend [Champion.mk "A" 1] [c1Deck] ["A"] [] 7).map
      (fun r => (r.deck_name, r.match_rate, r.completion_score))) = [("D", 1, 1)] ∧
    (1 : ℚ) ≠ 0.6 := by
  with_unfolding_all decide

/-- C1 (amended) — For every call to `recommend` and every meta deck with
a non-empty core-champion set contained in `my_champions`
(`match_rate = 1`), the reported completion score for that deck is exactly
1: the match rate contributes 0.6 and the acquisition score, forced to 1,
contributes 0.4. -/
theorem recommend_full_match (champs : List Champion) (meta_decks : List MetaDeck)
    (my_champions : List String) (opponent_champions : List (List String)) (level : ℕ)
    (deck : MetaDeck) (hdeck : deck ∈ meta_decks)
    (hcore : deck.core_champions ≠ [])
    (hsub : ∀ n ∈ deck.core_champions, n ∈ my_champions) :
    ∃ r ∈ recommend champs meta_decks my_champions opponent_champions level,
      r.deck_name = deck.name ∧ r.match_rate = 1 ∧ r.completion_score = 1 := by
  have hcore' : dedupKeepFirst deck.core_champions ≠ [] := dedupKeepFirst_ne_nil hcore
  have hlen : (dedupKeepFirst deck.core_champions).length ≠ 0 :=
    fun h => hcore' (List.length_eq_zero.mp h)
  have howned :
      (dedupKeepFirst deck.core_champions).filter (fun n => n ∈ my_champions) =
        dedupKeepFirst deck.core_champions :=
    List.filter_eq_self.mpr
      (fun a ha => decide_eq_true (hsub a (mem_of_mem_dedupKeepFirst ha)))
  have hneeded :
      (dedupKeepFirst deck.core_champions).filter (fun n => ¬ n ∈ my_champions) = [] := by
    rw [List.filter_eq_nil]
    intro a ha
    simp [hsub a (mem_of_mem_dedupKeepFirst ha)]
  have hq : ((dedupKeepFirst deck.core_champions).length : ℚ) /
      ((dedupKeepFirst deck.core_champions).length : ℚ) = 1 :=
    div_self (Nat.cast_ne_zero.mpr hlen)
  have hr2 : roundTo 2 (1 : ℚ) = 1 := by with_unfolding_all decide
  have hr4 : roundTo 4 ((1 : ℚ) * 0.6 + 1 * 0.4) = 1 := by with_unfolding_all decide
  have hdev : deckEntry champs (calculate_pool champs opponent_champions) my_champions level
      deck =
      [{ deck_name := deck.name
         tier := deck.tier
         win_rate := deck.win_rate
         pick_rate := deck.pick_rate
         synergies := deck.synergies
         core_items := deck.core_items
         match_rate := 1
         owned_champions := sortStringsAsc (dedupKeepFirst deck.core_champions)
         needed_champions := []
         completion_score := 1 }] := by
    unfold deckEntry
    dsimp only
    rw [if_neg hlen, howned, hneeded]
    simp only [List.map_nil, List.foldl_nil, ne_eq, not_true_eq_false, if_false, hq, hr2]
    rw [hr4]
  refine ⟨{ deck_name := deck.name
            tier := deck.tier
            win_rate := deck.win_rate
            pick_rate := deck.pick_rate
            synergies := deck.synergies
            core_items := deck.core_items
            match_rate := 1
            owned_champions := sortStringsAsc (dedupKeepFirst deck.core_champions)
            needed_champions := []
            completion_score := 1 }, ?_, rfl, rfl, rfl⟩
  unfold recommend
  rw [mem_sortDescBy]
  exact foldl_append_mem_of _ meta_decks [] deck _ hdeck
    (by rw [hdev]; exact List.mem_singleton_self _)

/-- C1 witness for the amended theorem: the counterexample deck. -/
theorem recommend_full_match_witness :
    c1Deck ∈ [c1Deck] ∧
    ∃ r ∈ recommend [Champion.mk "A" 1] [c1Deck] ["A"] [] 7,
      r.deck_name = c1Deck.name ∧ r.match_rate = 1 ∧ r.completion_score = 1 :=
  ⟨by decide,
   recommend_full_match [Champion.mk "A" 1] [c1Deck] ["A"] [] 7 c1Deck
     (by decide) (by decide) (by decide)⟩

/-! ### C5: NMS suppression is strict at the IoU threshold -/

theorem iouSuppress_iff {thr : ℚ} (hthr : 0 ≤ thr) (d k : Detection) :
    iouSuppress thr d k = true ↔ thr < iouQ d k := by
  unfold iouSuppress iouQ
  dsimp only
  split_ifs with h1 h2
  · simp [h2]
  · constructor
    · intro hc
      exact absurd (of_decide_eq_true hc).1 h2
    · intro hlt
      exact absurd hlt (not_lt.mpr hthr)
  · constructor
    · intro hc
      cases hc
    · intro hlt
      exact absurd hlt (not_lt.mpr hthr)

theorem iouQ_comm (d k : Detection) : iouQ d k = iouQ k d := by
  unfold iouQ
  dsimp only
  rw [max_comm d.position.1 k.position.1, max_comm d.position.2 k.position.2,
    min_comm (d.position.1 + d.size.1) (k.position.1 + k.size.1),
    min_comm (d.position.2 + d.size.2) (k.position.2 + k.size.2),
    add_comm (d.size.1 * d.size.2) (k.size.1 * k.size.2)]

/-- The first detection of the C5 counterexample: a 10×10 box. -/
def c5A : Detection :=
  Detection.mk "a" "a" "a" (0, 0) (10, 10) 0.9 "board" 1

/-- The second detection of the C5 counterexample: a 5×6 box inside the
first, giving intersection 30 and union 100, so IoU exactly 0.3. -/
def c5B : Detection :=
  Detection.mk "b" "b" "b" (0, 0) (5, 6) 0.8 "board" 1

/-- C5 counterexample — two detections whose IoU is exactly the 0.3
threshold: the claim says only the higher-confidence one survives
(suppression at IoU ≥ threshold), but `_nms_boxes` suppresses only on
`inter / union > iou_threshold`, a strict comparison, so both survive. -/
theorem nms_iou_eq_threshold_cex :
    iouQ c5A c5B = 0.3 ∧ c5B.confidence < c5A.confidence ∧
    nmsBoxes [c5A, c5B] 0.3 = [c5A, c5B] := by
  with_unfolding_all decide

/-- C5 (amended) — Deduplication sorts by descending confidence and keeps
a detection unless its IoU with an already-kept detection is strictly
greater than the 0.3 threshold: of two overlapping detections with IoU
above the threshold only the higher-confidence one survives, in either
input order; two detections with IoU at most the threshold (in particular
non-overlapping ones) both survive. -/
theorem nms_pair (a b : Detection) (h : b.confidence < a.confidence) :
    ((0.3 : ℚ) < iouQ a b →
      nmsBoxes [a, b] 0.3 = [a] ∧ nmsBoxes [b, a] 0.3 = [a]) ∧
    (iouQ a b ≤ 0.3 →
      nmsBoxes [a, b] 0.3 = [a, b] ∧ nmsBoxes [b, a] 0.3 = [a, b]) := by
  have hthr : (0 : ℚ) ≤ 0.3 := by norm_num
  have hsort1 : sortDescBy (fun d => d.confidence) [a, b] = [a, b] := by
    unfold sortDescBy
    simp only [List.foldr_cons, List.foldr_nil]
    simp only [insertDescBy]
    rw [if_pos (le_of_lt h)]
  have hsort2 : sortDescBy (fun d => d.confidence) [b, a] = [a, b] := by
    unfold sortDescBy
    simp only [List.foldr_cons, List.foldr_nil]
    simp only [insertDescBy]
    rw [if_neg (not_le.mpr h)]
  have hrun : ∀ c : Bool, c = iouSuppress 0.3 b a →
      nmsBoxes [a, b] 0.3 = (if c then [a] else [a, b]) ∧
      nmsBoxes [b, a] 0.3 = (if c then [a] else [a, b]) := by
    intro c hc
    constructor
    · unfold nmsBoxes
      rw [hsort1]
      simp only [List.foldl_cons, List.foldl_nil, List.any_nil, List.any_cons,
        Bool.or_false, Bool.false_eq_true, if_false, List.nil_append, ← hc]
      cases c <;> simp
    · unfold nmsBoxes
      rw [hsort2]
      simp only [List.foldl_cons, List.foldl_nil, List.any_nil, List.any_cons,
        Bool.or_false, Bool.false_eq_true, if_false, List.nil_append, ← hc]
      cases c <;> simp
  constructor
  · intro hgt
    have hsup : iouSuppress 0.3 b a = true := by
      rw [iouSuppress_iff hthr, ← iouQ_comm]
      exact hgt
    have := hrun _ hsup.symm
    simpa using this
  · intro hle
    have hsup : iouSuppress 0.3 b a = false := by
      rw [← Bool.not_eq_true, iouSuppress_iff hthr, ← iouQ_comm]
      exact not_lt.mpr hle
    have := hrun _ hsup.symm
    simpa using this

/-- The higher-confidence detection of the C5 witness pair. -/
def c5WA : Detection :=
  Detection.mk "a" "a" "a" (0, 0) (10, 10) 0.9 "board" 1

/-- The lower-confidence detection of the C5 witness pair: the same box,
so IoU 1. -/
def c5WB : Detection :=
  Detection.mk "b" "b" "b" (0, 0) (10, 10) 0.8 "board" 1

/-- C5 witness: identical boxes (IoU 1 > 0.3); only the
higher-confidence detection survives. -/
theorem nms_pair_witness :
    c5WB.confidence < c5WA.confidence ∧ (0.3 : ℚ) < iouQ c5WA c5WB ∧
    nmsBoxes [c5WA, c5WB] 0.3 = [c5WA] :=
  ⟨by with_unfolding_all decide, by with_unfolding_all decide,
   ((nms_pair c5WA c5WB (by with_unfolding_all decide)).1
     (by with_unfolding_all decide)).1⟩

/-! ### rounding bounds -/

theorem roundTo_le_roundTo (n : ℕ) {x y : ℚ} (h : x ≤ y) : roundTo n x ≤ roundTo n y := by
  unfold roundTo
  have hp : (0 : ℚ) < 10 ^ n := by positivity
  have hr : round (x * 10 ^ n) ≤ round (y * 10 ^ n) := by
    rw [round_eq, round_eq]
    exact Int.floor_le_floor (by
      have := mul_le_mul_of_nonneg_right h (le_of_lt hp)
      linarith)
  exact (div_le_div_right hp).mpr (by exact_mod_cast hr)

theorem roundTo4_lb (x : ℚ) : x - 1 / 20000 ≤ roundTo 4 x := by
  unfold roundTo
  rw [le_div_iff (by norm_num : (0 : ℚ) < 10 ^ 4)]
  have h := sub_half_lt_round (x * 10 ^ 4)
  calc (x - 1 / 20000) * 10 ^ 4 = x * 10 ^ 4 - 1 / 2 := by ring
  _ ≤ ((round (x * 10 ^ 4) : ℤ) : ℚ) := le_of_lt h

theorem roundTo4_le_one {x : ℚ} (h : x ≤ 1) : roundTo 4 x ≤ 1 := by
  have h1 : roundTo 4 (1 : ℚ) = 1 := by with_unfolding_all decide
  calc roundTo 4 x ≤ roundTo 4 1 := roundTo_le_roundTo 4 h
  _ = 1 := h1

/-! ### inversion lemmas for the detection pipeline -/

theorem bestFold_spec (threshold : ℚ) (x1 y1 : ℤ) (cands : List MatchCand) :
    (bestFold threshold x1 y1 cands).loc.isSome = true →
    ∃ c ∈ cands, (bestFold threshold x1 y1 cands).conf = c.conf ∧ threshold ≤ c.conf := by
  unfold bestFold
  refine foldl_invariant_mem
    (P := fun b : BestMatch =>
      b.loc.isSome = true → ∃ c ∈ cands, b.conf = c.conf ∧ threshold ≤ c.conf)
    _ cands { conf := 0, loc := none, size := none } ?_ ?_
  · intro hsome
    simp at hsome
  · intro b c hc hb
    dsimp only
    split_ifs with hcond
    · intro _
      exact ⟨c, hc, rfl, hcond.1⟩
    · exact hb

theorem detOfTemplate_eq_some {champion_map : String → Option ChampInfo} {threshold : ℚ}
    {x1 y1 : ℤ} {region_name api_name : String} {cands : List MatchCand} {d : Detection}
    (h : detOfTemplate champion_map threshold x1 y1 region_name api_name cands = some d) :
    d.area = region_name ∧
    ∃ c ∈ cands, d.confidence = roundTo 4 c.conf ∧ threshold ≤ c.conf := by
  unfold detOfTemplate at h
  dsimp only at h
  cases hl : (bestFold threshold x1 y1 cands).loc with
  | none =>
    rw [hl] at h
    exact Option.noConfusion h
  | some loc =>
    cases hs : (bestFold threshold x1 y1 cands).size with
    | none =>
      rw [hl, hs] at h
      exact Option.noConfusion h
    | some sz =>
      rw [hl, hs] at h
      split_ifs at h with hth
      · injection h with h
        obtain ⟨c, hc, hconf, hthc⟩ :=
          bestFold_spec threshold x1 y1 cands (by rw [hl]; rfl)
        subst h
        exact ⟨rfl, c, hc, by rw [hconf], hthc⟩

theorem mem_regionDetections {templates : List String}
    {champion_map : String → Option ChampInfo} {threshold : ℚ} {oracle : MatchOracle}
    {imgH imgW : ℕ} {region_name : String} {roi : Region} {d : Detection}
    (h : d ∈ regionDetections templates champion_map threshold oracle imgH imgW
      region_name roi) :
    d.area = region_name ∧
    ∃ api ∈ templates, ∃ c ∈ oracle region_name api,
      d.confidence = roundTo 4 c.conf ∧ threshold ≤ c.conf := by
  unfold regionDetections at h
  dsimp only at h
  split_ifs at h with hcrop
  · cases h
  · rcases List.mem_filterMap.mp h with ⟨api, hapi, hsome⟩
    obtain ⟨harea, c, hc, hconf, hth⟩ := detOfTemplate_eq_some hsome
    exact ⟨harea, api, hapi, c, hc, hconf, hth⟩

theorem mem_detect_champions {templates : List String}
    {champion_map : String → Option ChampInfo} {threshold : ℚ} {oracle : MatchOracle}
    {imgH imgW : ℕ} {regions : List (String × Region)} {d : Detection}
    (h : d ∈ detect_champions templates champion_map threshold oracle imgH imgW regions) :
    ∃ rp ∈ regions, d.area = rp.1 ∧
      ∃ api ∈ templates, ∃ c ∈ oracle rp.1 api,
        d.confidence = roundTo 4 c.conf ∧ threshold ≤ c.conf := by
  unfold detect_champions at h
  split_ifs at h with hempty
  · cases h
  · have h' := mem_nmsBoxes h
    rcases mem_foldl_append _ regions [] d h' with h'' | ⟨rp, hrp, hmem⟩
    · cases h''
    · obtain ⟨harea, api, hapi, c, hc, hconf, hth⟩ := mem_regionDetections hmem
      exact ⟨rp, hrp, harea, api, hapi, c, hc, hconf, hth⟩

/-! ### C9: emitted confidences versus the configured threshold -/

/-- The oracle of the C9 counterexample: one raw score of 0.70002 in the
board region. -/
def c9Oracle : MatchOracle := fun r api =>
  if r = "board" ∧ api = "t" then [MatchCand.mk (35001 / 50000) 0 0 10 10] else []

/-- C9 counterexample — with the configured threshold `set_threshold
0.70002 = 0.70002` (an allowed value in `[0.1, 1.0]`) and a raw match
score equal to it, the emitted detection's confidence is the score rounded
to 4 decimals, `0.7`, which is strictly below the configured threshold:
the claim's lower bound fails. -/
theorem detect_confidence_cex :
    set_threshold (35001 / 50000) = 35001 / 50000 ∧
    ((detect_champions ["t"] (fun _ => none) (35001 / 50000) c9Oracle
        1080 1920 [("board", Region.mk 0.20 0.20 0.60 0.50)]).map
      (fun d => d.confidence)) = [0.7] ∧
    (0.7 : ℚ) < 35001 / 50000 := by
  refine ⟨?_, ?_, by with_unfolding_all decide⟩
  · unfold set_threshold
    rw [min_eq_right (by norm_num : (35001 / 50000 : ℚ) ≤ 1.0),
      max_eq_right (by norm_num : (0.1 : ℚ) ≤ 35001 / 50000)]
  have h1 : detect_champions ["t"] (fun _ => none) (35001 / 50000) c9Oracle 1080 1920
      [("board", Region.mk 0.20 0.20 0.60 0.50)] =
      nmsBoxes (regionDetections ["t"] (fun _ => none) (35001 / 50000) c9Oracle 1080 1920
        "board" (Region.mk 0.20 0.20 0.60 0.50)) 0.3 := rfl
  have h2 : regionDetections ["t"] (fun _ => none) (35001 / 50000) c9Oracle 1080 1920
      "board" (Region.mk 0.20 0.20 0.60 0.50) =
      [Detection.mk "t" "t" "t" (384, 216) (10, 10) 0.7 "board" 1] := by
    with_unfolding_all decide
  have h3 : nmsBoxes [Detection.mk "t" "t" "t" (384, 216) (10, 10) 0.7 "board" 1] 0.3 =
      [Detection.mk "t" "t" "t" (384, 216) (10, 10) 0.7 "board" 1] := by
    with_unfolding_all decide
  rw [h1, h2, h3]
  rfl

/-- C9 (amended) — Every detection emitted by `detect_champions` carries a
confidence equal to a raw match score `≥ threshold` rounded to 4 decimals;
it is therefore at least `threshold − 0.00005`, and at most 1 provided the
raw similarity scores are at most 1 (the nominal range of normalized
cross-correlation).  The un-rounded best score satisfies the claimed lower
bound exactly; the reported value can undershoot the threshold by at most
half of the rounding step. -/
theorem detect_confidence_bounds (templates : List String)
    (champion_map : String → Option ChampInfo) (threshold : ℚ) (oracle : MatchOracle)
    (imgH imgW : ℕ) (regions : List (String × Region))
    (hscore : ∀ r api, ∀ c ∈ oracle r api, c.conf ≤ 1) :
    ∀ d ∈ detect_champions templates champion_map threshold oracle imgH imgW regions,
      threshold - 1 / 20000 ≤ d.confidence ∧ d.confidence ≤ 1 := by
  intro d hd
  obtain ⟨rp, _, _, api, _, c, hc, hconf, hth⟩ := mem_detect_champions hd
  rw [hconf]
  constructor
  · calc threshold - 1 / 20000 ≤ c.conf - 1 / 20000 := by linarith
    _ ≤ roundTo 4 c.conf := roundTo4_lb c.conf
  · exact roundTo4_le_one (hscore rp.1 api c hc)

/-- The oracle of the C9 witness: one raw score of 0.9 in the board
region. -/
def c9WOracle : MatchOracle := fun r api =>
  if r = "board" ∧ api = "t" then [MatchCand.mk 0.9 0 0 10 10] else []

/-- The detection the C9 witness oracle produces. -/
def c9WDet : Detection :=
  Detection.mk "t" "t" "t" (384, 216) (10, 10) 0.9 "board" 1

/-- C9 witness: at threshold 0.7 the emitted detection's confidence 0.9
obeys the amended bounds. -/
theorem detect_confidence_bounds_witness :
    (∀ r api, ∀ c ∈ c9WOracle r api, c.conf ≤ 1) ∧
    ((0.7 : ℚ) - 1 / 20000 ≤ c9WDet.confidence ∧ c9WDet.confidence ≤ 1) := by
  have hs : ∀ r api, ∀ c ∈ c9WOracle r api, c.conf ≤ 1 := by
    intro r api c hc
    unfold c9WOracle at hc
    split_ifs at hc with hcase
    · rcases List.mem_singleton.mp hc with rfl
      norm_num
    · cases hc
  exact ⟨hs,
    detect_confidence_bounds ["t"] (fun _ => none) 0.7 c9WOracle 1080 1920 REGIONS hs
      c9WDet (by with_unfolding_all decide)⟩

/-! ### C8: detect_from_region("shop") restricts but does not slot or cap -/

/-- The oracle of the C8 counterexample: six disjoint hits in the shop
region. -/
def c8Oracle : MatchOracle := fun r api =>
  if r = "shop" then
    if api = "t1" then [MatchCand.mk 0.9 0 0 10 10]
    else if api = "t2" then [MatchCand.mk 0.9 100 0 10 10]
    else if api = "t3" then [MatchCand.mk 0.9 200 0 10 10]
    else if api = "t4" then [MatchCand.mk 0.9 300 0 10 10]
    else if api = "t5" then [MatchCand.mk 0.9 400 0 10 10]
    else if api = "t6" then [MatchCand.mk 0.9 500 0 10 10]
    else []
  else []

/-- C8 counterexample — with six templates matching at disjoint positions
in the shop region, `detect_from_region(frame, "shop")` returns six
detections: it does not truncate to at most 5 (and assigns no slot
indices — the detection record has no slot field at all). -/
theorem detect_from_region_shop_cex :
    (detect_from_region ["t1", "t2", "t3", "t4", "t5", "t6"] (fun _ => none) 0.7 c8Oracle
      1080 1920 "shop").length = 6 ∧
    ¬ (detect_from_region ["t1", "t2", "t3", "t4", "t5", "t6"] (fun _ => none) 0.7 c8Oracle
      1080 1920 "shop").length ≤ 5 := by
  with_unfolding_all decide

/-- C8 (amended) — `detect_from_region` restricts the search to the named
region: for "shop" every returned detection is tagged with the shop
region, and an unknown region name yields an empty result.  The code
neither sorts the survivors left-to-right, nor assigns slot indices, nor
truncates to 5. -/
theorem detect_from_region_shop_area (templates : List String)
    (champion_map : String → Option ChampInfo) (threshold : ℚ) (oracle : MatchOracle)
    (imgH imgW : ℕ) :
    (∀ d ∈ detect_from_region templates champion_map threshold oracle imgH imgW "shop",
      d.area = "shop") ∧
    (∀ r, REGIONS.find? (fun p => p.1 = r) = none →
      detect_from_region templates champion_map threshold oracle imgH imgW r = []) := by
  constructor
  · intro d hd
    unfold detect_from_region at hd
    have hfind : REGIONS.find? (fun p => p.1 = "shop") =
        some ("shop", Region.mk 0.28 0.90 0.44 0.09) := by
      with_unfolding_all decide
    rw [hfind] at hd
    obtain ⟨rp, hrp, harea, _⟩ := mem_detect_champions hd
    rcases List.mem_singleton.mp hrp with rfl
    exact harea
  · intro r hr
    unfold detect_from_region
    rw [hr]

/-- The oracle of the C8 witness: one hit in the shop region. -/
def c8WOracle : MatchOracle := fun r api =>
  if r = "shop" ∧ api = "t" then [MatchCand.mk 0.9 3 4 10 10] else []

/-- The detection the C8 witness oracle produces (shop crop origin is
(537, 972) on a 1920×1080 frame). -/
def c8WDet : Detection :=
  Detection.mk "t" "t" "t" (540, 976) (10, 10) 0.9 "shop" 1

/-- C8 witness: the produced detection is tagged with the shop region. -/
theorem detect_from_region_shop_area_witness :
    c8WDet ∈ detect_from_region ["t"] (fun _ => none) 0.7 c8WOracle 1080 1920 "shop" ∧
    c8WDet.area = "shop" :=
  ⟨by with_unfolding_all decide,
   (detect_from_region_shop_area ["t"] (fun _ => none) 0.7 c8WOracle 1080 1920).1 c8WDet
     (by with_unfolding_all decide)⟩

end TFTGuide
